import Mathlib

/-!
Verification of the part pricing subsystem (Part and PriceHistory) of the
meiwaproducts backend, shallowly embedded from `api/purchases/models.py`,
`api/purchases/serializers.py` and `api/purchases/views.py`.

Embedding conventions:
* Dates (`DateField`) are integers counting days; a nullable date column is
  `Option Int`.
* Prices (`DecimalField`) are integers in minor currency units; the decimal
  scale plays no role in any property proved here, the price is only carried.
* A database table is a `List` of rows; a row's `pk` is `none` before the
  first save and `some k` afterwards.  Django's `timezone.now().date()` is an
  explicit `today : Int` parameter.
* Raising `ValidationError` is returning `some` error / `Except.error`.
-/

/-- A row of the `price_histories` table (`PriceHistory` model).  Fields not
read by any modelled method (change reason, quote file, notes, timestamps,
creator) are omitted; `start_date` is a required column, `end_date` is
nullable. -/
structure PriceHistory where
  pk : Option Nat
  part : Nat
  price : Int
  start_date : Int
  end_date : Option Int
  is_active : Bool
deriving DecidableEq, Repr

/-- The validation errors `PriceHistory.clean` can raise: the range-order
error (end date before start date) and the overlap error. -/
inductive PriceError where
  | rangeOrder
  | overlap
deriving DecidableEq, Repr

/-- The condition under which `PriceHistory.clean` raises its range-order
error: `self.end_date and self.start_date and self.end_date < self.start_date`
(`start_date` is always present in the embedding, as in a saved row). -/
def range_violation (self : PriceHistory) : Bool :=
  match self.end_date with
  | some e => decide (e < self.start_date)
  | none => false

/-- `PriceHistory._is_overlapping(self, other)` from `models.py`. -/
def PriceHistory.is_overlapping (self other : PriceHistory) : Bool :=
  match self.end_date with
  | none =>
    match other.end_date with
    | none => true
    | some oe => decide (self.start_date ≤ oe)
  | some se =>
    match other.end_date with
    | none => decide (other.start_date ≤ se)
    | some oe => decide (self.start_date ≤ oe) && decide (other.start_date ≤ se)

/-- The queryset `clean` compares against: rows of the same part with
`is_active=True`, excluding the candidate's own `pk` when it has one. -/
def comparison_set (self : PriceHistory) (db : List PriceHistory) : List PriceHistory :=
  let base := db.filter (fun h => h.part == self.part && h.is_active)
  match self.pk with
  | some k => base.filter (fun h => !(h.pk == some k))
  | none => base

/-- `PriceHistory.clean` from `models.py`: first the range-order check, then
the overlap check against `comparison_set`. -/
def PriceHistory.clean (self : PriceHistory) (db : List PriceHistory) : Option PriceError :=
  if range_violation self then some .rangeOrder
  else if (comparison_set self db).any (fun h => self.is_overlapping h) then some .overlap
  else none

/-- C10: the pairwise overlap predicate `_is_overlapping` is symmetric in its
two rows. -/
theorem is_overlapping_symm (a b : PriceHistory) :
    a.is_overlapping b = b.is_overlapping a := by
  cases ha : a.end_date <;> cases hb : b.end_date <;>
    simp [PriceHistory.is_overlapping, ha, hb, Bool.and_comm]

/-- C1: the overlap check follows the spec's pairwise rule exactly (both
unbounded: always overlap; one side unbounded: the bounded end reaches the
other start; both bounded: `S ≤ E'` and `E ≥ S'`), the comparison set is the
set of other active rows of the same part excluding the candidate itself, and
(for a candidate passing the range-order check) `clean` fails with the overlap
error exactly when the candidate overlaps some row of the comparison set. -/
theorem clean_overlap_rule (self other : PriceHistory) (db : List PriceHistory)
    (hr : range_violation self = false) :
    ((self.end_date = none → other.end_date = none → self.is_overlapping other = true)
      ∧ (∀ oe, self.end_date = none → other.end_date = some oe →
          (self.is_overlapping other = true ↔ self.start_date ≤ oe))
      ∧ (∀ se, self.end_date = some se → other.end_date = none →
          (self.is_overlapping other = true ↔ other.start_date ≤ se))
      ∧ (∀ se oe, self.end_date = some se → other.end_date = some oe →
          (self.is_overlapping other = true ↔
            self.start_date ≤ oe ∧ other.start_date ≤ se)))
    ∧ (∀ h, h ∈ comparison_set self db ↔
        h ∈ db ∧ h.part = self.part ∧ h.is_active = true ∧
          ∀ k, self.pk = some k → h.pk ≠ some k)
    ∧ (self.clean db = some PriceError.overlap ↔
        ∃ h ∈ comparison_set self db, self.is_overlapping h = true) := by
  refine ⟨⟨?_, ?_, ?_, ?_⟩, ?_, ?_⟩
  · intro h1 h2
    simp [PriceHistory.is_overlapping, h1, h2]
  · intro oe h1 h2
    simp [PriceHistory.is_overlapping, h1, h2]
  · intro se h1 h2
    simp [PriceHistory.is_overlapping, h1, h2]
  · intro se oe h1 h2
    simp [PriceHistory.is_overlapping, h1, h2]
  · intro h
    unfold comparison_set
    cases hpk : self.pk with
    | none =>
      simp [List.mem_filter, and_assoc, hpk]
    | some k =>
      simp only [List.mem_filter, Bool.and_eq_true, beq_iff_eq, Bool.not_eq_true',
        beq_eq_false_iff_ne, ne_eq, hpk]
      constructor
      · rintro ⟨⟨hm, hp, ha⟩, hne⟩
        exact ⟨hm, hp, ha, fun k' hk' => by injection hk' with h2; exact h2 ▸ hne⟩
      · rintro ⟨hm, hp, ha, hall⟩
        exact ⟨⟨hm, hp, ha⟩, hall k rfl⟩
  · have key : self.clean db = some PriceError.overlap ↔
        (comparison_set self db).any (fun h => self.is_overlapping h) = true := by
      unfold PriceHistory.clean
      rw [hr]
      by_cases hc : (comparison_set self db).any (fun h => self.is_overlapping h) = true
      · simp [hc]
      · simp only [Bool.not_eq_true] at hc
        simp [hc]
    rw [key]
    simp [List.any_eq_true]

/-- Concrete candidate for the C1 witness: bounded range [0, 5], no pk. -/
def c1Cand : PriceHistory := ⟨none, 1, 100, 0, some 5, true⟩

/-- Concrete stored active row for the C1 witness: bounded range [3, 10]. -/
def c1Other : PriceHistory := ⟨some 1, 1, 200, 3, some 10, true⟩

/-- Witness for C1 at a concrete candidate and database. -/
theorem clean_overlap_rule_witness :
    range_violation c1Cand = false ∧
      (c1Cand.clean [c1Other] = some PriceError.overlap ↔
        ∃ h ∈ comparison_set c1Cand [c1Other], c1Cand.is_overlapping h = true) :=
  ⟨by decide, (clean_overlap_rule c1Cand c1Other [c1Other] (by decide)).2.2⟩

/-- `PriceHistory.save` from `models.py`, restricted to its own effect on the
row: if the end date is present and before today, `is_active` is forced to
`False`; the (possibly modified) row is then persisted by `super().save()`. -/
def PriceHistory.save (self : PriceHistory) (today : Int) : PriceHistory :=
  match self.end_date with
  | some e => if e < today then { self with is_active := false } else self
  | none => self

/-- Persisting a row into the table: replace the row carrying the same pk
when one exists, otherwise append (a fresh row). -/
def writeRow (db : List PriceHistory) (h : PriceHistory) : List PriceHistory :=
  match h.pk with
  | some k =>
    if db.any (fun r => r.pk == some k) then
      db.map (fun r => if r.pk == some k then h else r)
    else db ++ [h]
  | none => db ++ [h]

/-- The full save path for a PriceHistory mutation: run `clean` (model
validation), and only on success apply the save-time auto-deactivation and
write the row. -/
def validate_and_save (db : List PriceHistory) (self : PriceHistory) (today : Int) :
    Except PriceError (List PriceHistory) :=
  match self.clean db with
  | some e => .error e
  | none => .ok (writeRow db (self.save today))

/-- C4: on every save, a row whose end date is strictly before today is
persisted with `is_active = false`, even when the caller supplied
`is_active = true` on that same row. -/
theorem save_forces_inactive (self : PriceHistory) (today e : Int)
    (he : self.end_date = some e) (hlt : e < today) :
    (self.save today).is_active = false := by
  simp [PriceHistory.save, he, hlt]

/-- Witness for C4: an explicitly active row ending on day 0 saved on day 1
comes out inactive. -/
theorem save_forces_inactive_witness :
    (⟨none, 1, 100, 0, some 0, true⟩ : PriceHistory).is_active = true ∧
      ((⟨none, 1, 100, 0, some 0, true⟩ : PriceHistory).save 1).is_active = false :=
  ⟨rfl, save_forces_inactive ⟨none, 1, 100, 0, some 0, true⟩ 1 0 rfl (by decide)⟩

/-- Membership in a written table: every row either was already stored or is
the row just written. -/
theorem mem_writeRow {db : List PriceHistory} {h r : PriceHistory}
    (hr : r ∈ writeRow db h) : r ∈ db ∨ r = h := by
  unfold writeRow at hr
  split at hr
  · split at hr
    · rcases List.mem_map.mp hr with ⟨a, ha, haeq⟩
      split at haeq
      · right; exact haeq.symm
      · left; exact haeq ▸ ha
    · rcases List.mem_append.mp hr with h1 | h1
      · left; exact h1
      · right; exact (List.mem_singleton.mp h1)
  · rcases List.mem_append.mp hr with h1 | h1
    · left; exact h1
    · right; exact (List.mem_singleton.mp h1)

/-- Auto-deactivation never touches the date columns. -/
theorem save_preserves_dates (self : PriceHistory) (today : Int) :
    (self.save today).start_date = self.start_date ∧
      (self.save today).end_date = self.end_date := by
  unfold PriceHistory.save
  split
  · split <;> simp
  · simp

/-- A row passing `clean` satisfies the range-order invariant. -/
theorem clean_none_range (self : PriceHistory) (db : List PriceHistory)
    (h : self.clean db = none) :
    ∀ e, self.end_date = some e → self.start_date ≤ e := by
  intro e he
  unfold PriceHistory.clean at h
  by_cases hv : range_violation self = true
  · rw [hv] at h
    simp at h
  · simp only [Bool.not_eq_true] at hv
    unfold range_violation at hv
    rw [he] at hv
    simp at hv
    omega

/-- C5: saving a row whose end date precedes its start date fails with the
range-order error, so no write occurs; and any successful save preserves the
invariant that every stored row with an end date ends no earlier than it
starts. -/
theorem range_order_enforced (self : PriceHistory) (db : List PriceHistory) (today : Int) :
    (∀ e, self.end_date = some e → e < self.start_date →
      validate_and_save db self today = Except.error PriceError.rangeOrder)
    ∧ (∀ db', validate_and_save db self today = Except.ok db' →
        (∀ r ∈ db, ∀ e, r.end_date = some e → r.start_date ≤ e) →
        ∀ r ∈ db', ∀ e, r.end_date = some e → r.start_date ≤ e) := by
  constructor
  · intro e he hlt
    have hv : range_violation self = true := by
      simp [range_violation, he]
      exact hlt
    have hc : self.clean db = some PriceError.rangeOrder := by
      unfold PriceHistory.clean
      rw [hv]
      simp
    unfold validate_and_save
    rw [hc]
  · intro db' hok hinv r hr e hre
    cases hcl : self.clean db with
    | some err =>
      unfold validate_and_save at hok
      rw [hcl] at hok
      exact absurd hok (by simp)
    | none =>
      unfold validate_and_save at hok
      rw [hcl] at hok
      simp only [Except.ok.injEq] at hok
      subst hok
      rcases mem_writeRow hr with hmem | hsaved
      · exact hinv r hmem e hre
      · subst hsaved
        have hd := save_preserves_dates self today
        rw [hd.1]
        have : self.end_date = some e := by rw [← hd.2]; exact hre
        exact clean_none_range self db hcl e this

/-- Witness for C5: a row ending (day 0) before it starts (day 3) is rejected
with the range-order error, and a successful save of a well-formed row keeps
the stored table range-ordered. -/
theorem range_order_enforced_witness :
    validate_and_save [] (⟨none, 1, 100, 3, some 0, true⟩ : PriceHistory) 10 =
      Except.error PriceError.rangeOrder :=
  (range_order_enforced ⟨none, 1, 100, 3, some 0, true⟩ [] 10).1 0 rfl (by decide)

/-- C2 amended: `clean` never reads the candidate's own active flag, so an
inactive candidate undergoes exactly the same overlap check as an active one;
only the comparison set is restricted to active rows. -/
theorem clean_ignores_candidate_active (self : PriceHistory) (db : List PriceHistory)
    (b : Bool) :
    PriceHistory.clean { self with is_active := b } db = self.clean db := rfl

/-- C2 counterexample: an inactive candidate (open range from day 0) overlapping
an active stored row of the same part is still rejected with the overlap
error, so inactive candidates are not exempt from the overlap check. -/
theorem clean_inactive_candidate_rejected :
    (⟨none, 1, 100, 0, none, false⟩ : PriceHistory).is_active = false ∧
      (⟨none, 1, 100, 0, none, false⟩ : PriceHistory).clean
        [⟨some 1, 1, 100, 0, none, true⟩] = some PriceError.overlap := by
  decide

/-- `PriceHistory.is_current` from `models.py`; `start_date` is a required
column, so the initial null-start guard of the source is vacuous here. -/
def PriceHistory.is_current (self : PriceHistory) (today : Int) : Bool :=
  if !self.is_active then false
  else if decide (today < self.start_date) then false
  else
    match self.end_date with
    | some e => if decide (e < today) then false else true
    | none => true

/-- `PriceHistory.is_expired` from `models.py`. -/
def PriceHistory.is_expired (self : PriceHistory) (today : Int) : Bool :=
  match self.end_date with
  | none => false
  | some e => decide (e < today)

/-- C9: boundary behaviour of the derived flags: an active row starting today
with no end date is current; an active already-started row ending exactly
today is current (end date inclusive); and any row ending yesterday is
expired. -/
theorem boundary_current_expired (self : PriceHistory) (today : Int) :
    (self.is_active = true → self.start_date = today → self.end_date = none →
      self.is_current today = true)
    ∧ (self.is_active = true → self.start_date ≤ today → self.end_date = some today →
      self.is_current today = true)
    ∧ (self.end_date = some (today - 1) → self.is_expired today = true) := by
  refine ⟨?_, ?_, ?_⟩
  · intro ha hs he
    simp [PriceHistory.is_current, ha, hs, he]
  · intro ha hs he
    simp [PriceHistory.is_current, ha, he]
    omega
  · intro he
    simp [PriceHistory.is_expired, he]

/-- Witness for C9 at day 5: a row starting on day 5 with no end, a row ending
on day 5, and a row ending on day 4. -/
theorem boundary_current_expired_witness :
    ((⟨some 1, 1, 100, 5, none, true⟩ : PriceHistory).is_current 5 = true)
    ∧ ((⟨some 2, 1, 100, 0, some 5, true⟩ : PriceHistory).is_current 5 = true)
    ∧ ((⟨some 3, 1, 100, 0, some 4, true⟩ : PriceHistory).is_expired 5 = true) :=
  ⟨(boundary_current_expired ⟨some 1, 1, 100, 5, none, true⟩ 5).1 rfl rfl rfl,
   (boundary_current_expired ⟨some 2, 1, 100, 0, some 5, true⟩ 5).2.1 rfl (by decide) rfl,
   (boundary_current_expired ⟨some 3, 1, 100, 0, some 4, true⟩ 5).2.2 (by decide)⟩

/-- The filter of `Part.current_price`: `is_active=True` and
`start_date <= today` (no condition on the end date). -/
def started_active (today : Int) (h : PriceHistory) : Bool :=
  h.is_active && decide (h.start_date ≤ today)

/-- The effect of `order_by('-start_date').first()`: the first row in
start-date-descending order, i.e. a stored row of maximal start date. -/
def firstByStartDesc : List PriceHistory → Option PriceHistory
  | [] => none
  | h :: t =>
    match firstByStartDesc t with
    | none => some h
    | some b => if h.start_date < b.start_date then some b else some h

/-- `Part.current_price` from `models.py`: among this part's rows with
`is_active=True` and `start_date <= today`, the price of the first row in
start-date-descending order; `None` if there is no such row. -/
def current_price (db : List PriceHistory) (partId : Nat) (today : Int) : Option Int :=
  (firstByStartDesc
    ((db.filter (fun h => h.part == partId)).filter (started_active today))).map
    (fun h => h.price)

/-- `firstByStartDesc` is empty exactly on the empty list. -/
theorem firstByStartDesc_eq_none (l : List PriceHistory) :
    firstByStartDesc l = none ↔ l = [] := by
  induction l with
  | nil => simp [firstByStartDesc]
  | cons h t ih =>
    cases ht : firstByStartDesc t with
    | none => simp [firstByStartDesc, ht]
    | some b =>
      simp only [firstByStartDesc, ht]
      constructor
      · intro hx
        by_cases hlt : h.start_date < b.start_date <;> simp [hlt] at hx
      · intro hx
        simp at hx

/-- A row selected by `firstByStartDesc` belongs to the list and has maximal
start date in it. -/
theorem firstByStartDesc_spec (l : List PriceHistory) (b : PriceHistory)
    (hb : firstByStartDesc l = some b) :
    b ∈ l ∧ ∀ x ∈ l, x.start_date ≤ b.start_date := by
  induction l generalizing b with
  | nil => simp [firstByStartDesc] at hb
  | cons h t ih =>
    cases ht : firstByStartDesc t with
    | none =>
      have hte : t = [] := (firstByStartDesc_eq_none t).mp ht
      subst hte
      simp [firstByStartDesc] at hb
      subst hb
      refine ⟨List.mem_cons_self _ _, ?_⟩
      intro x hx
      rcases List.mem_cons.mp hx with rfl | hx
      · exact le_refl _
      · simp at hx
    | some c =>
      simp only [firstByStartDesc, ht] at hb
      rcases ih c ht with ⟨hc, hmax⟩
      by_cases hlt : h.start_date < c.start_date
      · rw [if_pos hlt] at hb
        injection hb with hb
        subst hb
        refine ⟨List.mem_cons_of_mem _ hc, ?_⟩
        intro x hx
        rcases List.mem_cons.mp hx with rfl | hxt
        · exact le_of_lt hlt
        · exact hmax x hxt
      · rw [if_neg hlt] at hb
        injection hb with hb
        subst hb
        refine ⟨List.mem_cons_self _ _, ?_⟩
        intro x hx
        rcases List.mem_cons.mp hx with rfl | hxt
        · exact le_refl _
        · exact le_trans (hmax x hxt) (not_lt.mp hlt)

/-- Membership in the `current_price` queryset. -/
theorem mem_started_active (db : List PriceHistory) (partId : Nat) (today : Int)
    (x : PriceHistory) :
    x ∈ (db.filter (fun h => h.part == partId)).filter (started_active today) ↔
      x ∈ db ∧ x.part = partId ∧ x.is_active = true ∧ x.start_date ≤ today := by
  simp only [List.mem_filter, started_active, Bool.and_eq_true, beq_iff_eq,
    decide_eq_true_eq]
  tauto

/-- C3: `current_price` returns `none` exactly when the part has no row with
`is_active=True` and start date at most today, and otherwise returns the
price of such a row whose start date is maximal among them — with no
condition whatsoever on the end date. -/
theorem current_price_spec (db : List PriceHistory) (partId : Nat) (today : Int) :
    (current_price db partId today = none ↔
      ∀ r ∈ db, r.part = partId → r.is_active = true → ¬(r.start_date ≤ today))
    ∧ ∀ p, current_price db partId today = some p →
        ∃ r ∈ db, r.part = partId ∧ r.is_active = true ∧ r.start_date ≤ today ∧
          r.price = p ∧
          ∀ x ∈ db, x.part = partId → x.is_active = true → x.start_date ≤ today →
            x.start_date ≤ r.start_date := by
  constructor
  · rw [current_price, Option.map_eq_none', firstByStartDesc_eq_none,
      List.eq_nil_iff_forall_not_mem]
    constructor
    · intro hall r hr hp ha hs
      exact hall r ((mem_started_active db partId today r).mpr ⟨hr, hp, ha, hs⟩)
    · intro hall x hx
      rcases (mem_started_active db partId today x).mp hx with ⟨h1, h2, h3, h4⟩
      exact hall x h1 h2 h3 h4
  · intro p hp
    unfold current_price at hp
    cases hf : firstByStartDesc
        ((db.filter (fun h => h.part == partId)).filter (started_active today)) with
    | none => rw [hf] at hp; simp at hp
    | some b =>
      rw [hf, Option.map_some'] at hp
      rcases firstByStartDesc_spec _ b hf with ⟨hbmem, hmax⟩
      rcases (mem_started_active db partId today b).mp hbmem with ⟨h1, h2, h3, h4⟩
      refine ⟨b, h1, h2, h3, h4, by injection hp, ?_⟩
      intro x hx hxp hxa hxs
      exact hmax x ((mem_started_active db partId today x).mpr ⟨hx, hxp, hxa, hxs⟩)

/-- Row for the C3 witness whose end date has already passed on day 5. -/
def c3Row1 : PriceHistory := ⟨some 1, 1, 100, 1, some 2, true⟩

/-- Row for the C3 witness with the later start date. -/
def c3Row2 : PriceHistory := ⟨some 2, 1, 250, 3, none, true⟩

/-- Witness for C3: on day 5 the returned price 250 belongs to a qualifying
row of maximal start date. -/
theorem current_price_spec_witness :
    ∃ r ∈ [c3Row1, c3Row2], r.part = 1 ∧ r.is_active = true ∧ r.start_date ≤ 5 ∧
      r.price = 250 ∧
      ∀ x ∈ [c3Row1, c3Row2], x.part = 1 → x.is_active = true → x.start_date ≤ 5 →
        x.start_date ≤ r.start_date :=
  (current_price_spec [c3Row1, c3Row2] 1 5).2 250 (by decide)

/-- Start-date-descending order used by `order_by('-start_date')`. -/
def startDesc (a b : PriceHistory) : Prop := b.start_date ≤ a.start_date

instance : DecidableRel startDesc := fun _ _ => Int.decLe _ _

instance : IsTotal PriceHistory startDesc := ⟨fun a b => le_total b.start_date a.start_date⟩

instance : IsTrans PriceHistory startDesc := ⟨fun _ _ _ h1 h2 => le_trans h2 h1⟩

/-- The filter of `Part.current_prices`: active, already started, and with no
end date or an end date not before today. -/
def current_valid (today : Int) (h : PriceHistory) : Bool :=
  h.is_active && decide (h.start_date ≤ today) &&
    (match h.end_date with
     | none => true
     | some e => decide (today ≤ e))

/-- `Part.current_prices` from `models.py`: all currently valid rows of the
part in start-date-descending order. -/
def current_prices (db : List PriceHistory) (partId : Nat) (today : Int) : List PriceHistory :=
  List.insertionSort startDesc
    ((db.filter (fun h => h.part == partId)).filter (current_valid today))

/-- `Part.has_multiple_active_prices` from `models.py`. -/
def has_multiple_active_prices (db : List PriceHistory) (partId : Nat) (today : Int) : Bool :=
  decide (1 < (current_prices db partId today).length)

/-- Membership in the `current_prices` queryset. -/
theorem mem_current_valid (db : List PriceHistory) (partId : Nat) (today : Int)
    (r : PriceHistory) :
    r ∈ (db.filter (fun h => h.part == partId)).filter (current_valid today) ↔
      r ∈ db ∧ r.part = partId ∧ r.is_active = true ∧ r.start_date ≤ today ∧
        (r.end_date = none ∨ ∃ e, r.end_date = some e ∧ today ≤ e) := by
  simp only [List.mem_filter, Bool.and_eq_true, beq_iff_eq, decide_eq_true_eq,
    current_valid]
  cases he : r.end_date with
  | none => simp [he]; tauto
  | some e => simp [he]; tauto

/-- C6: `current_prices` holds exactly the part's rows that are active,
already started, and not yet ended (end date absent or at least today), in
start-date-descending order; `has_multiple_active_prices` holds exactly when
more than one row qualifies — it is a total boolean signal, not an error. -/
theorem current_prices_spec (db : List PriceHistory) (partId : Nat) (today : Int) :
    (∀ r, r ∈ current_prices db partId today ↔
      r ∈ db ∧ r.part = partId ∧ r.is_active = true ∧ r.start_date ≤ today ∧
        (r.end_date = none ∨ ∃ e, r.end_date = some e ∧ today ≤ e))
    ∧ (current_prices db partId today).Sorted startDesc
    ∧ (has_multiple_active_prices db partId today = true ↔
        1 < db.countP (fun r => current_valid today r && (r.part == partId))) := by
  refine ⟨?_, ?_, ?_⟩
  · intro r
    rw [current_prices, List.mem_insertionSort]
    exact mem_current_valid db partId today r
  · exact List.sorted_insertionSort startDesc _
  · unfold has_multiple_active_prices current_prices
    rw [decide_eq_true_eq, List.length_insertionSort, List.filter_filter,
      ← List.countP_eq_length_filter]

/-- Row for the C6 witness: active, started on day 3, open-ended. -/
def c6Row : PriceHistory := ⟨some 1, 1, 250, 3, none, true⟩

/-- Witness for C6: the concrete qualifying row is in `current_prices`. -/
theorem current_prices_spec_witness :
    c6Row ∈ current_prices [c6Row] 1 5 :=
  ((current_prices_spec [c6Row] 1 5).1 c6Row).mpr
    ⟨by decide, rfl, rfl, by decide, Or.inl rfl⟩

namespace Purchases

/-- A row of the `parts` table (`Part` model of `models.py`; the name is
qualified because Mathlib already has a root `Part`).  Only the fields the
modelled operations read are kept. -/
structure Part where
  pk : Option Nat
  product : Nat
  supplier_branch : Nat
  part_number : String
  is_active : Bool
deriving DecidableEq, Repr

/-- The uniqueness triple of `Part`: same product, same supplier branch and
same part number. -/
def sameTriple (a b : Part) : Bool :=
  a.product == b.product && a.supplier_branch == b.supplier_branch &&
    a.part_number == b.part_number

/-- The error `Part.clean` and `PartCreateUpdateSerializer.validate` raise on
a duplicated triple. -/
inductive PartError where
  | duplicateKey
deriving DecidableEq, Repr

/-- `Part.clean` from `models.py` (the serializer's `validate` runs the same
query): look for rows with the same triple, excluding the row itself when it
already has a pk, and fail when any exists. -/
def Part.clean (self : Part) (db : List Part) : Option PartError :=
  match self.pk with
  | some k =>
    if (db.filter (fun p => sameTriple p self && !(p.pk == some k))).isEmpty then none
    else some .duplicateKey
  | none =>
    if (db.filter (fun p => sameTriple p self)).isEmpty then none
    else some .duplicateKey

/-- Creating a Part: validate the fresh input (it has no pk yet) and append
it under a newly assigned pk. -/
def createPart (db : List Part) (input : Part) (newPk : Nat) :
    Except PartError (List Part) :=
  match Part.clean { input with pk := none } db with
  | some e => .error e
  | none => .ok (db ++ [{ input with pk := some newPk }])

/-- Updating a stored Part: validate excluding the row itself, then replace
the row carrying its pk. -/
def updatePart (db : List Part) (self : Part) : Except PartError (List Part) :=
  match self.clean db with
  | some e => .error e
  | none => .ok (db.map (fun p => if p.pk == self.pk then self else p))

/-- Outcome of `PartDetailView.destroy` from `views.py`. -/
inductive DestroyResult where
  | forbidden
  | dependencyExists
  | deleted
deriving DecidableEq, Repr

/-- `PartDetailView.destroy` from `views.py`: non-administrators are refused;
a part referenced by any price-history row (whatever its active flag) cannot
be deleted; otherwise the row is removed. -/
def destroyPart (isAdmin : Bool) (partId : Nat) (parts : List Part)
    (histories : List PriceHistory) : DestroyResult × List Part :=
  if !isAdmin then (.forbidden, parts)
  else if histories.any (fun h => h.part == partId) then (.dependencyExists, parts)
  else (.deleted, parts.filter (fun p => !(p.pk == some partId)))

/-- C7: deleting a part as a non-administrator is refused with the parts
table untouched; for an administrator the deletion fails with the dependency
error exactly when some price-history row references the part (its active
flag playing no role), again leaving the table untouched, and succeeds
exactly when no row references it. -/
theorem destroy_part_spec (isAdmin : Bool) (partId : Nat) (parts : List Part)
    (histories : List PriceHistory) :
    (isAdmin = false → destroyPart isAdmin partId parts histories = (.forbidden, parts))
    ∧ (isAdmin = true →
        ((destroyPart isAdmin partId parts histories).1 = .dependencyExists ↔
          ∃ h ∈ histories, h.part = partId)
        ∧ ((destroyPart isAdmin partId parts histories).1 = .dependencyExists →
            (destroyPart isAdmin partId parts histories).2 = parts)
        ∧ ((destroyPart isAdmin partId parts histories).1 = .deleted ↔
            ∀ h ∈ histories, h.part ≠ partId)) := by
  constructor
  · intro hne
    subst hne
    simp [destroyPart]
  · intro ha
    subst ha
    by_cases hdep : histories.any (fun h => h.part == partId) = true
    · have hex : ∃ h ∈ histories, h.part = partId := by
        rcases List.any_eq_true.mp hdep with ⟨x, hx, hxe⟩
        exact ⟨x, hx, by simpa using hxe⟩
      have hred : destroyPart true partId parts histories = (.dependencyExists, parts) := by
        simp [destroyPart, hdep]
      refine ⟨?_, ?_, ?_⟩
      · constructor
        · intro _; exact hex
        · intro _; rw [hred]
      · intro _; rw [hred]
      · constructor
        · intro hcontra
          rw [hred] at hcontra
          exact absurd hcontra (by simp)
        · intro hall
          exfalso
          rcases hex with ⟨h, hh, he⟩
          exact hall h hh he
    · simp only [Bool.not_eq_true] at hdep
      have hred : destroyPart true partId parts histories =
          (.deleted, parts.filter (fun p => !(p.pk == some partId))) := by
        simp [destroyPart, hdep]
      have hnone : ∀ h ∈ histories, h.part ≠ partId := by
        intro h hh he
        have hany : histories.any (fun x => x.part == partId) = true :=
          List.any_eq_true.mpr ⟨h, hh, by simpa using he⟩
        rw [hdep] at hany
        exact absurd hany (by simp)
      refine ⟨?_, ?_, ?_⟩
      · constructor
        · intro heq
          rw [hred] at heq
          exact absurd heq (by simp)
        · rintro ⟨h, hh, he⟩
          exact absurd he (hnone h hh)
      · intro heq
        rw [hred] at heq
        exact absurd heq (by simp)
      · constructor
        · intro _; exact hnone
        · intro _; rw [hred]

/-- Part for the C7 witness. -/
def c7Part : Part := ⟨some 1, 1, 1, "PN-1", true⟩

/-- Inactive price-history row referencing part 1, for the C7 witness. -/
def c7Hist : PriceHistory := ⟨some 1, 1, 100, 0, some 3, false⟩

/-- Witness for C7: a non-administrator is refused, and for an administrator
the inactive referencing row still blocks deletion. -/
theorem destroy_part_spec_witness :
    destroyPart false 1 [c7Part] [c7Hist] = (DestroyResult.forbidden, [c7Part]) ∧
      (destroyPart true 1 [c7Part] [c7Hist]).1 = DestroyResult.dependencyExists :=
  ⟨(destroy_part_spec false 1 [c7Part] [c7Hist]).1 rfl,
   (((destroy_part_spec true 1 [c7Part] [c7Hist]).2 rfl).1).mpr
     ⟨c7Hist, by decide, rfl⟩⟩

end Purchases

namespace Purchases

/-- Characterisation of the uniqueness triple. -/
theorem sameTriple_iff (a b : Part) :
    sameTriple a b = true ↔
      a.product = b.product ∧ a.supplier_branch = b.supplier_branch ∧
        a.part_number = b.part_number := by
  simp [sameTriple, and_assoc]

/-- The uniqueness triple comparison is symmetric. -/
theorem sameTriple_symm (a b : Part) : sameTriple a b = sameTriple b a := by
  by_cases h : sameTriple a b = true
  · rcases (sameTriple_iff a b).mp h with ⟨h1, h2, h3⟩
    rw [h, (sameTriple_iff b a).mpr ⟨h1.symm, h2.symm, h3.symm⟩]
  · have h' : ¬sameTriple b a = true := by
      intro hc
      rcases (sameTriple_iff b a).mp hc with ⟨h1, h2, h3⟩
      exact h ((sameTriple_iff a b).mpr ⟨h1.symm, h2.symm, h3.symm⟩)
    simp only [Bool.not_eq_true] at h h'
    rw [h, h']

/-- `Part.clean` raises the duplicate error exactly when a stored row shares
the triple, the row itself (by pk) excepted. -/
theorem part_clean_error_iff (self : Part) (db : List Part) :
    self.clean db = some PartError.duplicateKey ↔
      ∃ p ∈ db, sameTriple p self = true ∧ (self.pk = none ∨ p.pk ≠ self.pk) := by
  cases hpk : self.pk with
  | none =>
    simp only [Part.clean, hpk]
    by_cases he : (db.filter (fun p => sameTriple p self)).isEmpty = true
    · rw [if_pos he]
      rw [List.isEmpty_iff, List.filter_eq_nil_iff] at he
      constructor
      · intro hx
        exact absurd hx (by simp)
      · rintro ⟨p, hp, hs, _⟩
        exact absurd hs (by simpa using he p hp)
    · rw [if_neg he]
      rw [List.isEmpty_iff] at he
      constructor
      · intro _
        rcases List.exists_mem_of_ne_nil _ he with ⟨p, hp⟩
        rcases List.mem_filter.mp hp with ⟨hpdb, hps⟩
        exact ⟨p, hpdb, hps, Or.inl trivial⟩
      · intro _
        rfl
  | some k =>
    simp only [Part.clean, hpk]
    by_cases he :
        (db.filter (fun p => sameTriple p self && !(p.pk == some k))).isEmpty = true
    · rw [if_pos he]
      rw [List.isEmpty_iff, List.filter_eq_nil_iff] at he
      constructor
      · intro hx
        exact absurd hx (by simp)
      · rintro ⟨p, hp, hs, hor⟩
        have hnp := he p hp
        rcases hor with hc | hne2
        · exact absurd hc (by simp)
        · exfalso
          apply hnp
          rw [Bool.and_eq_true]
          exact ⟨hs, by simpa using hne2⟩
    · rw [if_neg he]
      rw [List.isEmpty_iff] at he
      constructor
      · intro _
        rcases List.exists_mem_of_ne_nil _ he with ⟨p, hp⟩
        rcases List.mem_filter.mp hp with ⟨hpdb, hps⟩
        rw [Bool.and_eq_true] at hps
        refine ⟨p, hpdb, hps.1, Or.inr ?_⟩
        simpa using hps.2
      · intro _
        rfl

/-- Pairwise distinctness of the uniqueness triple across a table. -/
def triplesUnique (db : List Part) : Prop :=
  db.Pairwise (fun p q => sameTriple p q = false)

/-- Pairwise distinctness of primary keys across a table. -/
def pksUnique (db : List Part) : Prop :=
  db.Pairwise (fun p q => p.pk ≠ q.pk)

/-- C8: creating a part fails with the duplicate-key error exactly when some
stored part shares the (product, supplier branch, part number) triple;
updating fails exactly when some stored part other than the row itself shares
the triple; and any successful create or update keeps the triples pairwise
distinct across the table. -/
theorem part_uniqueness_spec (db : List Part) (input self : Part) (newPk k : Nat) :
    (createPart db input newPk = Except.error PartError.duplicateKey ↔
      ∃ p ∈ db, sameTriple p input = true)
    ∧ (self.pk = some k →
        (updatePart db self = Except.error PartError.duplicateKey ↔
          ∃ p ∈ db, p.pk ≠ some k ∧ sameTriple p self = true))
    ∧ (∀ db', triplesUnique db → createPart db input newPk = Except.ok db' →
        triplesUnique db')
    ∧ (∀ db', self.pk = some k → pksUnique db → triplesUnique db →
        updatePart db self = Except.ok db' → triplesUnique db') := by
  have hc1 : Part.clean { input with pk := none } db = some PartError.duplicateKey ↔
      ∃ p ∈ db, sameTriple p input = true := by
    rw [part_clean_error_iff]
    constructor
    · rintro ⟨p, hp, hs, _⟩
      exact ⟨p, hp, hs⟩
    · rintro ⟨p, hp, hs⟩
      exact ⟨p, hp, hs, Or.inl rfl⟩
  have hc2 : self.pk = some k →
      (self.clean db = some PartError.duplicateKey ↔
        ∃ p ∈ db, p.pk ≠ some k ∧ sameTriple p self = true) := by
    intro hk
    rw [part_clean_error_iff]
    constructor
    · rintro ⟨p, hp, hs, hor⟩
      rcases hor with hnone | hne
      · rw [hk] at hnone
        exact absurd hnone (by simp)
      · rw [hk] at hne
        exact ⟨p, hp, hne, hs⟩
    · rintro ⟨p, hp, hne, hs⟩
      refine ⟨p, hp, hs, Or.inr ?_⟩
      rw [hk]
      exact hne
  refine ⟨?_, ?_, ?_, ?_⟩
  · unfold createPart
    cases hcl : Part.clean { input with pk := none } db with
    | some e =>
      cases e
      exact iff_of_true rfl (hc1.mp hcl)
    | none =>
      refine iff_of_false (by simp) ?_
      intro hex
      have h2 := hc1.mpr hex
      rw [hcl] at h2
      exact absurd h2 (by simp)
  · intro hk
    unfold updatePart
    cases hcl : self.clean db with
    | some e =>
      cases e
      exact iff_of_true rfl ((hc2 hk).mp hcl)
    | none =>
      refine iff_of_false (by simp) ?_
      intro hex
      have h2 := (hc2 hk).mpr hex
      rw [hcl] at h2
      exact absurd h2 (by simp)
  · intro db' hu hok
    unfold createPart at hok
    cases hcl : Part.clean { input with pk := none } db with
    | some e =>
      rw [hcl] at hok
      cases e
      exact absurd hok (by simp)
    | none =>
      rw [hcl] at hok
      simp only [Except.ok.injEq] at hok
      subst hok
      have hnodup : ∀ p ∈ db, sameTriple p input = false := by
        intro p hp
        by_cases hs : sameTriple p input = true
        · have h2 := hc1.mpr ⟨p, hp, hs⟩
          rw [hcl] at h2
          exact absurd h2 (by simp)
        · simpa using hs
      unfold triplesUnique at *
      rw [List.pairwise_append]
      refine ⟨hu, List.pairwise_singleton _ _, ?_⟩
      intro a ha b hb
      rw [List.mem_singleton] at hb
      subst hb
      exact hnodup a ha
  · intro db' hk hpkU hu hok
    unfold updatePart at hok
    cases hcl : self.clean db with
    | some e =>
      rw [hcl] at hok
      cases e
      exact absurd hok (by simp)
    | none =>
      rw [hcl] at hok
      simp only [Except.ok.injEq] at hok
      subst hok
      have hnodup : ∀ p ∈ db, p.pk ≠ some k → sameTriple p self = false := by
        intro p hp hne
        by_cases hs : sameTriple p self = true
        · have h2 := (hc2 hk).mpr ⟨p, hp, hne, hs⟩
          rw [hcl] at h2
          exact absurd h2 (by simp)
        · simpa using hs
      unfold triplesUnique pksUnique at *
      rw [List.pairwise_map]
      refine List.Pairwise.imp_of_mem ?_ (hu.and hpkU)
      intro a b ha hb hab
      rcases hab with ⟨hst, hpkne⟩
      by_cases hak : (a.pk == self.pk) = true
      · have hbk : ¬(b.pk == self.pk) = true := by
          intro hbk
          apply hpkne
          rw [beq_iff_eq] at hak hbk
          rw [hak, hbk]
        rw [if_pos hak, if_neg hbk]
        rw [sameTriple_symm]
        apply hnodup b hb
        rw [beq_iff_eq, hk] at hbk
        exact hbk
      · by_cases hbk : (b.pk == self.pk) = true
        · rw [if_neg hak, if_pos hbk]
          apply hnodup a ha
          rw [beq_iff_eq, hk] at hak
          exact hak
        · rw [if_neg hak, if_neg hbk]
          exact hst

/-- Stored part for the C8 witness. -/
def c8Existing : Part := ⟨some 1, 1, 1, "PN-1", true⟩

/-- Updated part carrying the same triple under another pk, for the C8
witness. -/
def c8Update : Part := ⟨some 2, 1, 1, "PN-1", true⟩

/-- Witness for C8: updating part 2 to the triple already held by part 1 is
rejected with the duplicate-key error. -/
theorem part_uniqueness_spec_witness :
    updatePart [c8Existing] c8Update = Except.error PartError.duplicateKey :=
  ((part_uniqueness_spec [c8Existing] c8Existing c8Update 0 2).2.1 rfl).mpr
    ⟨c8Existing, by decide, by decide, by decide⟩

end Purchases
